import Mathlib

/-! Shallow embedding of `src/python/pynexml/characters.py` (PyNexml character
data model): discrete character-state elements, state alphabets with
id/symbol/token lookup and fundamental-set matching, the standard DNA
alphabet construction, and the character-block container.

Python `set` objects are modelled as duplicate-free `List`s together with a
membership-based equality test (`pySetEq`): a Python set is compared by
element membership, and iteration order of the collection underlying an
alphabet is modelled by list order.  The member-state references of a
composite state are embedded structurally (a state contains its member
states), which makes the member-state graph acyclic by construction —
exactly the acyclicity precondition the spec places on fundamental-state
resolution.
-/

set_option autoImplicit false

/-- Embedding of the Python class `DiscreteStateAlphabetElement`:
a character state with an identifier, optional label, optional symbol,
optional token, a multistate kind tag, and an optional list of member
states (`None` in Python is `none`; a present-but-empty list is `some []`).
`elem_id` is a plain `String`: `base.IdTagged` (not under `src/`) supplies
each element a unique identifier, per the base-entity contract of the spec.
-/
inductive DiscreteStateAlphabetElement : Type where
  | mk (elem_id : String) (label : Option String) (symbol : Option String)
      (token : Option String) (multistate : Nat)
      (member_states : Option (List DiscreteStateAlphabetElement))

mutual

/-- Decidable structural equality for state elements (automatic deriving is
unavailable for this nested inductive). -/
def decEqState : (a b : DiscreteStateAlphabetElement) → Decidable (a = b)
  | .mk e1 l1 s1 t1 m1 ms1, .mk e2 l2 s2 t2 m2 ms2 =>
    haveI : Decidable (ms1 = ms2) := decEqOptMembers ms1 ms2
    decidable_of_iff (e1 = e2 ∧ l1 = l2 ∧ s1 = s2 ∧ t1 = t2 ∧ m1 = m2 ∧ ms1 = ms2)
      (by rw [DiscreteStateAlphabetElement.mk.injEq])

/-- Decidable equality for optional member-state lists. -/
def decEqOptMembers : (a b : Option (List DiscreteStateAlphabetElement)) → Decidable (a = b)
  | none, none => isTrue rfl
  | some x, some y =>
    haveI : Decidable (x = y) := decEqMembers x y
    decidable_of_iff (x = y) (by simp)
  | none, some _ => isFalse (by simp)
  | some _, none => isFalse (by simp)

/-- Decidable equality for member-state lists. -/
def decEqMembers : (a b : List DiscreteStateAlphabetElement) → Decidable (a = b)
  | [], [] => isTrue rfl
  | [], _ :: _ => isFalse (by simp)
  | _ :: _, [] => isFalse (by simp)
  | x :: xs, y :: ys =>
    haveI : Decidable (x = y) := decEqState x y
    haveI : Decidable (xs = ys) := decEqMembers xs ys
    decidable_of_iff (x = y ∧ xs = ys) (by rw [List.cons.injEq])

end

instance : DecidableEq DiscreteStateAlphabetElement := decEqState

namespace DiscreteStateAlphabetElement

/-- Multistate kind tag `SINGLE_STATE = 0`. -/
def SINGLE_STATE : Nat := 0

/-- Multistate kind tag `AMBIGUOUS_STATE = 1`. -/
def AMBIGUOUS_STATE : Nat := 1

/-- Multistate kind tag `POLYMORPHIC_STATE = 2`. -/
def POLYMORPHIC_STATE : Nat := 2

/-- Accessor for the `elem_id` attribute. -/
def elem_id : DiscreteStateAlphabetElement → String
  | .mk e _ _ _ _ _ => e

/-- Accessor for the `label` attribute. -/
def label : DiscreteStateAlphabetElement → Option String
  | .mk _ l _ _ _ _ => l

/-- Accessor for the `symbol` attribute. -/
def symbol : DiscreteStateAlphabetElement → Option String
  | .mk _ _ s _ _ _ => s

/-- Accessor for the `token` attribute. -/
def token : DiscreteStateAlphabetElement → Option String
  | .mk _ _ _ t _ _ => t

/-- Accessor for the `multistate` attribute. -/
def multistate : DiscreteStateAlphabetElement → Nat
  | .mk _ _ _ _ m _ => m

/-- Accessor for the `member_states` attribute. -/
def member_states : DiscreteStateAlphabetElement → Option (List DiscreteStateAlphabetElement)
  | .mk _ _ _ _ _ ms => ms

end DiscreteStateAlphabetElement

/-- Insertion into a Python-set-as-list: adds the element only when absent
(Python `set.add` / the element-adding effect of `set.update`). -/
def setInsert {α : Type} [DecidableEq α] (l : List α) (x : α) : List α :=
  if x ∈ l then l else l ++ [x]

/-- Union update: `setUnion a b` models Python `a.update(b)`: every element of `b` is
inserted into `a` unless already present. -/
def setUnion {α : Type} [DecidableEq α] (a b : List α) : List α :=
  b.foldl setInsert a

namespace DiscreteStateAlphabetElement

mutual

/-- Python `_get_fundamental_states`: if `member_states` is
`None` the result is `set([self])`; otherwise the union, over each member
state, of the fundamental states of that member. -/
def fundamental_states : DiscreteStateAlphabetElement → List DiscreteStateAlphabetElement
  | .mk e l s t m none => [.mk e l s t m none]
  | .mk _ _ _ _ _ (some ms) => fundamental_states_of_members ms

/-- The loop `for state in self.member_states: states.update(...)` of
`_get_fundamental_states`, accumulating the union member by member. -/
def fundamental_states_of_members :
    List DiscreteStateAlphabetElement → List DiscreteStateAlphabetElement
  | [] => []
  | m :: rest => setUnion (fundamental_states m) (fundamental_states_of_members rest)

end

/-- Python `_get_fundamental_ids`: the set of `elem_id`s of the fundamental states. -/
def fundamental_ids (s : DiscreteStateAlphabetElement) : List String :=
  (fundamental_states s).foldl (fun acc t => setInsert acc t.elem_id) []

/-- One step of the comprehensions in `_get_fundamental_symbols` /
`_get_fundamental_tokens`: add the attribute value only when it is truthy
in Python (present and not the empty string). -/
def truthyInsert (acc : List String) (v : Option String) : List String :=
  match v with
  | some str => if str = "" then acc else setInsert acc str
  | none => acc

/-- Python `_get_fundamental_symbols`: symbols of the fundamental states whose
symbol is truthy. -/
def fundamental_symbols (s : DiscreteStateAlphabetElement) : List String :=
  (fundamental_states s).foldl (fun acc t => truthyInsert acc t.symbol) []

/-- Python `_get_fundamental_tokens`: tokens of the fundamental states whose
token is truthy. -/
def fundamental_tokens (s : DiscreteStateAlphabetElement) : List String :=
  (fundamental_states s).foldl (fun acc t => truthyInsert acc t.token) []

end DiscreteStateAlphabetElement

deriving instance DecidableEq for Except

/-- The abstract error kinds of the error model of the spec.  The Python source
raises bare `Exception`s with messages; the message "State with ... not
defined" is `NotFound`, "Must specify ids, symbols or tokens" is
`InvalidArgument`, and identifier collision on insertion is
`DuplicateKey`. -/
inductive Err : Type where
  | NotFound
  | InvalidArgument
  | DuplicateKey
deriving DecidableEq

/-- The `attr_name` strings dispatched on by `get_state` / `get_states`:
one of `elem_id`, `symbol`, `token`. -/
inductive AttrName : Type where
  | elem_id
  | symbol
  | token
deriving DecidableEq

/-- Python `getattr(state, attr_name)` for the three lookup attributes.  `elem_id`
is always present; `symbol` and `token` may be `None`. -/
def attrVal (s : DiscreteStateAlphabetElement) : AttrName → Option String
  | .elem_id => some s.elem_id
  | .symbol => s.symbol
  | .token => s.token

/-- A `DiscreteStateAlphabetSet` is `base.IdTagged` plus a collection of
states.  The iteration order of the collection is modelled by the list order. -/
structure DiscreteStateAlphabetSet : Type where
  elem_id : String
  label : Option String
  states : List DiscreteStateAlphabetElement

/-- Python `DiscreteStateAlphabetSet.get_state(attr_name, value)`: linear scan
(`for state in self`) for the first state whose attribute equals `value`;
raises (`NotFound`) when no state matches. -/
def get_state (alpha : List DiscreteStateAlphabetElement) (attr : AttrName)
    (value : String) : Except Err DiscreteStateAlphabetElement :=
  match alpha with
  | [] => .error .NotFound
  | st :: rest =>
    if attrVal st attr = some value then .ok st else get_state rest attr value

/-- The loop of `get_states` after selector dispatch: apply `get_state` to
each value in order, propagating the first failure. -/
def get_states_values (alpha : List DiscreteStateAlphabetElement) (attr : AttrName) :
    List String → Except Err (List DiscreteStateAlphabetElement)
  | [] => .ok []
  | v :: rest =>
    match get_state alpha attr v with
    | .error e => .error e
    | .ok st =>
      match get_states_values alpha attr rest with
      | .error e => .error e
      | .ok sts => .ok (st :: sts)

/-- Python `DiscreteStateAlphabetSet.get_states(elem_ids, symbols, tokens)`: the
Python selector dispatch checks `elem_ids`, then `symbols`, then `tokens`
for being non-`None`, uses the first one it finds, and raises
(`InvalidArgument`) only when all three are `None`. -/
def get_states (alpha : List DiscreteStateAlphabetElement)
    (elem_ids symbols tokens : Option (List String)) :
    Except Err (List DiscreteStateAlphabetElement) :=
  match elem_ids with
  | some vals => get_states_values alpha .elem_id vals
  | none =>
    match symbols with
    | some vals => get_states_values alpha .symbol vals
    | none =>
      match tokens with
      | some vals => get_states_values alpha .token vals
      | none => .error .InvalidArgument

/-- The `attr_name` strings dispatched on by `match_state`: one of the
fundamental-set properties. -/
inductive FundAttr : Type where
  | fund_ids
  | fund_symbols
  | fund_tokens
deriving DecidableEq

/-- Python `getattr(state, attr_name)` for the three fundamental-set properties. -/
def fundAttrVal (s : DiscreteStateAlphabetElement) : FundAttr → List String
  | .fund_ids => s.fundamental_ids
  | .fund_symbols => s.fundamental_symbols
  | .fund_tokens => s.fundamental_tokens

/-- A selector value as accepted by `match_state`: a Python `list`, a
`str`, or any other collection (a `set`, carried as a duplicate-free
list). -/
inductive SelValues : Type where
  | ofList (l : List String)
  | ofStr (s : String)
  | ofSet (l : List String)
deriving DecidableEq

/-- The value normalisation of `match_state`: a list becomes `set(values)`,
a string becomes the set of its single-character strings, anything else is
used as is. -/
def normalizeValues : SelValues → List String
  | .ofList l => l.foldl setInsert []
  | .ofStr s => (s.toList.map Char.toString).foldl setInsert []
  | .ofSet l => l

/-- Python set equality (`==` between sets): same members. -/
def pySetEqB (a b : List String) : Bool :=
  a.all (fun x => decide (x ∈ b)) && b.all (fun x => decide (x ∈ a))

/-- The scan loop of `match_state`: return the first state (in iteration
order) whose fundamental id/symbol/token set equals `values` as a set, or
`none` when the set of no state equals it. -/
def match_state_scan (alpha : List DiscreteStateAlphabetElement) (fa : FundAttr)
    (values : List String) : Option DiscreteStateAlphabetElement :=
  match alpha with
  | [] => none
  | st :: rest =>
    if pySetEqB (fundAttrVal st fa) values then some st
    else match_state_scan rest fa values

/-- Python `DiscreteStateAlphabetSet.match_state(elem_ids, symbols, tokens)`:
selector dispatch exactly as in `get_states` (first non-`None` of
`elem_ids`, `symbols`, `tokens`; raises `InvalidArgument` only when all
three are `None`), then value normalisation and the first-match scan.
A missing match is the non-error result `none`. -/
def match_state (alpha : List DiscreteStateAlphabetElement)
    (elem_ids symbols tokens : Option SelValues) :
    Except Err (Option DiscreteStateAlphabetElement) :=
  match elem_ids with
  | some vals => .ok (match_state_scan alpha .fund_ids (normalizeValues vals))
  | none =>
    match symbols with
    | some vals => .ok (match_state_scan alpha .fund_symbols (normalizeValues vals))
    | none =>
      match tokens with
      | some vals => .ok (match_state_scan alpha .fund_tokens (normalizeValues vals))
      | none => .error .InvalidArgument

/-- Modelled from the spec: the alphabet insertion operation (`add(state)`
of §4.2, the `self.append(...)` calls of the source).  The insertion
machinery is resolved through `base.IdTagged`, whose module `base.py` is
not under `src/`; per the spec it inserts the state, preserving
construction order, and fails with `DuplicateKey` when a state with the
same identifier already exists. -/
def alphaAdd (alpha : List DiscreteStateAlphabetElement)
    (s : DiscreteStateAlphabetElement) :
    Except Err (List DiscreteStateAlphabetElement) :=
  if alpha.any (fun t => decide (t.elem_id = s.elem_id)) then .error .DuplicateKey
  else .ok (alpha ++ [s])

/-- A fundamental DNA state as constructed by `DnaStateAlphabetSet.__init__`:
`DiscreteStateAlphabetElement(symbol=sym)` with defaults `label=None`,
`token=None`, `multistate=SINGLE_STATE`, `member_states=None`.  Modelled
from the spec: `elem_id=None` makes `base.IdTagged` (not under `src/`)
generate a unique identifier; the symbol string is used as that
identifier, which is unique across the DNA construction. -/
def mkDnaSingle (sym : String) : DiscreteStateAlphabetElement :=
  .mk sym none (some sym) none DiscreteStateAlphabetElement.SINGLE_STATE none

/-- An ambiguous DNA state as constructed by `DnaStateAlphabetSet.__init__`:
`DiscreteStateAlphabetElement(symbol=sym, multistate=AMBIGUOUS_STATE,
member_states=ms)` (identifier generation modelled as in `mkDnaSingle`). -/
def mkDnaAmbiguous (sym : String) (ms : List DiscreteStateAlphabetElement) :
    DiscreteStateAlphabetElement :=
  .mk sym none (some sym) none DiscreteStateAlphabetElement.AMBIGUOUS_STATE (some ms)

/-- One ambiguous-state step of `DnaStateAlphabetSet.__init__`: resolve the
member states with `self.get_states(symbols=memberSyms)` against the
current contents, then insert the new ambiguous state. -/
def dnaAddAmbiguous (alpha : List DiscreteStateAlphabetElement) (sym : String)
    (memberSyms : List String) : Except Err (List DiscreteStateAlphabetElement) := do
  let ms ← get_states alpha none (some memberSyms) none
  alphaAdd alpha (mkDnaAmbiguous sym ms)

/-- The construction sequence of `DnaStateAlphabetSet.__init__`: the five
fundamental states `A`, `C`, `G`, `T`, `-`, then the twelve ambiguous
states `?`, `N`, `M`, `R`, `W`, `S`, `Y`, `K`, `V`, `H`, `D`, `B`, each
with member states resolved by symbol against the already-inserted
contents. -/
def dnaStatesE : Except Err (List DiscreteStateAlphabetElement) := do
  let a ← alphaAdd [] (mkDnaSingle "A")
  let a ← alphaAdd a (mkDnaSingle "C")
  let a ← alphaAdd a (mkDnaSingle "G")
  let a ← alphaAdd a (mkDnaSingle "T")
  let a ← alphaAdd a (mkDnaSingle "-")
  let a ← dnaAddAmbiguous a "?" ["A", "C", "G", "T", "-"]
  let a ← dnaAddAmbiguous a "N" ["A", "C", "G", "T"]
  let a ← dnaAddAmbiguous a "M" ["A", "C"]
  let a ← dnaAddAmbiguous a "R" ["A", "G"]
  let a ← dnaAddAmbiguous a "W" ["A", "T"]
  let a ← dnaAddAmbiguous a "S" ["C", "G"]
  let a ← dnaAddAmbiguous a "Y" ["C", "T"]
  let a ← dnaAddAmbiguous a "K" ["G", "T"]
  let a ← dnaAddAmbiguous a "V" ["A", "C", "G"]
  let a ← dnaAddAmbiguous a "H" ["A", "C", "T"]
  let a ← dnaAddAmbiguous a "D" ["A", "G", "T"]
  let a ← dnaAddAmbiguous a "B" ["C", "G", "T"]
  pure a

/-- The contents of the standard DNA alphabet (`DnaStateAlphabetSet`),
extracted from the successful construction. -/
def dnaStates : List DiscreteStateAlphabetElement :=
  match dnaStatesE with
  | .ok l => l
  | .error _ => []

/-- The state of the DNA alphabet carrying a given symbol, when present. -/
def dnaStateBySymbol (sym : String) : Option DiscreteStateAlphabetElement :=
  dnaStates.find? (fun t => decide (t.symbol = some sym))

/-- Embedding of `CharactersBlock`: a `dict` (taxon name, modelled as `String`, to row
of states) that is also `taxa.TaxaLinked`, with `state_alphabet_sets` and
`characters` lists.  `taxa.TaxaLinked` is not under `src/`; per the spec
it contributes only an association to an external taxa block, modelled as
an opaque optional name. -/
structure CharactersBlock : Type where
  elem_id : String
  label : Option String
  taxa_block : Option String
  rows : List (String × List DiscreteStateAlphabetElement)
  state_alphabet_sets : List (List DiscreteStateAlphabetElement)
  characters : List String

/-- Python `dict` item assignment `d[k] = v`: overwrite the existing entry
for `k` or add a new one. -/
def dictSet (rows : List (String × List DiscreteStateAlphabetElement)) (k : String)
    (v : List DiscreteStateAlphabetElement) :
    List (String × List DiscreteStateAlphabetElement) :=
  if rows.any (fun p => decide (p.1 = k)) then
    rows.map (fun p => if p.1 = k then (k, v) else p)
  else rows ++ [(k, v)]

/-- Setting the row of a taxon on a `CharactersBlock`: the class defines no
method of its own for this, so it is `dict` item assignment
(`block[taxon] = states`), which validates nothing. -/
def setRow (b : CharactersBlock) (taxon : String)
    (states : List DiscreteStateAlphabetElement) : CharactersBlock :=
  { b with rows := dictSet b.rows taxon states }

/-- Reading the row of a taxon from a `CharactersBlock`: `dict` lookup. -/
def getRow (b : CharactersBlock) (taxon : String) :
    Option (List DiscreteStateAlphabetElement) :=
  (b.rows.find? (fun p => decide (p.1 = taxon))).map (fun p => p.2)

/-- Membership of a state in one of the registered alphabet sets of a block
(the condition the setRow operation of the spec is claimed to validate). -/
def stateRegistered (b : CharactersBlock) (s : DiscreteStateAlphabetElement) : Bool :=
  b.state_alphabet_sets.any (fun alpha => alpha.any (fun t => decide (t = s)))

/-- A one-state alphabet used as a concrete evaluation fixture: a single
fundamental state with identifier `s1` and symbol `A`. -/
def fixtureState : DiscreteStateAlphabetElement :=
  .mk "s1" none (some "A") none DiscreteStateAlphabetElement.SINGLE_STATE none

/-- The contents of the fixture alphabet. -/
def fixtureAlpha : List DiscreteStateAlphabetElement := [fixtureState]

/-- A state foreign to the DNA alphabet, used as a concrete fixture. -/
def foreignState : DiscreteStateAlphabetElement :=
  .mk "z9" none (some "Z") none DiscreteStateAlphabetElement.SINGLE_STATE none

/-- A character block registering the DNA alphabet and holding no rows. -/
def dnaBlock : CharactersBlock :=
  { elem_id := "blk1", label := none, taxa_block := none, rows := [],
    state_alphabet_sets := [dnaStates], characters := [] }

/-- Membership in the Python-set insertion: an element is in
`setInsert l a` exactly when it is in `l` or equals `a`. -/
theorem mem_setInsert {α : Type} [DecidableEq α] (l : List α) (a x : α) :
    x ∈ setInsert l a ↔ x ∈ l ∨ x = a := by
  unfold setInsert
  split
  · rename_i h
    constructor
    · exact fun hx => Or.inl hx
    · rintro (hx | rfl)
      · exact hx
      · exact h
  · simp

/-- Membership in the Python-set union update. -/
theorem mem_setUnion {α : Type} [DecidableEq α] (a b : List α) (x : α) :
    x ∈ setUnion a b ↔ x ∈ a ∨ x ∈ b := by
  induction b generalizing a with
  | nil => simp [setUnion]
  | cons y ys ih =>
    have hstep : setUnion a (y :: ys) = setUnion (setInsert a y) ys := rfl
    rw [hstep, ih, mem_setInsert]
    simp [List.mem_cons]
    tauto

/-- Membership in the accumulated union of the fundamental states of a
member list. -/
theorem mem_fundamental_states_of_members
    (ms : List DiscreteStateAlphabetElement) (x : DiscreteStateAlphabetElement) :
    x ∈ DiscreteStateAlphabetElement.fundamental_states_of_members ms ↔
      ∃ m ∈ ms, x ∈ DiscreteStateAlphabetElement.fundamental_states m := by
  induction ms with
  | nil => simp [DiscreteStateAlphabetElement.fundamental_states_of_members]
  | cons m rest ih =>
    rw [DiscreteStateAlphabetElement.fundamental_states_of_members, mem_setUnion, ih]
    simp [List.mem_cons, or_and_right, exists_or]

/-- Membership in a fold of Python-set insertions of projected values. -/
theorem mem_foldl_setInsert {α β : Type} [DecidableEq β] (f : α → β)
    (l : List α) (init : List β) (x : β) :
    x ∈ l.foldl (fun acc t => setInsert acc (f t)) init ↔
      x ∈ init ∨ ∃ t ∈ l, f t = x := by
  induction l generalizing init with
  | nil => simp
  | cons a as ih =>
    rw [List.foldl_cons, ih, mem_setInsert]
    simp [List.mem_cons, or_and_right, exists_or]
    tauto

/-- Membership in a single truthiness-filtered insertion. -/
theorem mem_truthyInsert (init : List String) (v : Option String) (x : String) :
    x ∈ DiscreteStateAlphabetElement.truthyInsert init v ↔
      x ∈ init ∨ (v = some x ∧ x ≠ "") := by
  cases v with
  | none => simp [DiscreteStateAlphabetElement.truthyInsert]
  | some str =>
    simp only [DiscreteStateAlphabetElement.truthyInsert, Option.some.injEq]
    by_cases hs : str = ""
    · rw [if_pos hs]
      constructor
      · exact fun hx => Or.inl hx
      · rintro (hx | ⟨rfl, hne⟩)
        · exact hx
        · exact absurd hs hne
    · rw [if_neg hs, mem_setInsert]
      constructor
      · rintro (hx | rfl)
        · exact Or.inl hx
        · exact Or.inr ⟨rfl, hs⟩
      · rintro (hx | ⟨rfl, _⟩)
        · exact Or.inl hx
        · exact Or.inr rfl
/-- Membership in a fold of truthiness-filtered insertions of projected
optional values. -/
theorem mem_foldl_truthyInsert {α : Type} (f : α → Option String)
    (l : List α) (init : List String) (x : String) :
    x ∈ l.foldl (fun acc t => DiscreteStateAlphabetElement.truthyInsert acc (f t)) init ↔
      x ∈ init ∨ ∃ t ∈ l, f t = some x ∧ x ≠ "" := by
  induction l generalizing init with
  | nil => simp
  | cons a as ih =>
    rw [List.foldl_cons, ih, mem_truthyInsert]
    simp [List.mem_cons, or_and_right, exists_or]
    tauto

/-- Python set equality as membership equivalence. -/
theorem pySetEqB_iff (a b : List String) :
    pySetEqB a b = true ↔ ∀ x, (x ∈ a ↔ x ∈ b) := by
  unfold pySetEqB
  simp only [Bool.and_eq_true, List.all_eq_true, decide_eq_true_eq]
  constructor
  · rintro ⟨h1, h2⟩ x
    exact ⟨fun hx => h1 x hx, fun hx => h2 x hx⟩
  · intro h
    exact ⟨fun x hx => (h x).1 hx, fun x hx => (h x).2 hx⟩

/-- Characterisation of a successful `match_state` scan: the returned state
satisfies the set-equality test and is the first such state in iteration
order (every state before it fails the test). -/
theorem match_state_scan_eq_some (alpha : List DiscreteStateAlphabetElement)
    (fa : FundAttr) (values : List String) (st : DiscreteStateAlphabetElement)
    (h : match_state_scan alpha fa values = some st) :
    pySetEqB (fundAttrVal st fa) values = true ∧
      ∃ pre suf, alpha = pre ++ st :: suf ∧
        ∀ p ∈ pre, pySetEqB (fundAttrVal p fa) values = false := by
  induction alpha with
  | nil => cases h
  | cons a rest ih =>
    rw [match_state_scan] at h
    by_cases hc : pySetEqB (fundAttrVal a fa) values = true
    · rw [if_pos hc] at h
      obtain rfl : a = st := Option.some.inj h
      exact ⟨hc, [], rest, rfl, by simp⟩
    · rw [if_neg hc] at h
      obtain ⟨hq, pre, suf, hsplit, hpre⟩ := ih h
      refine ⟨hq, a :: pre, suf, by rw [hsplit]; rfl, ?_⟩
      intro p hp
      rcases List.mem_cons.mp hp with rfl | hp2
      · exact Bool.not_eq_true _ ▸ (by simpa using hc)
      · exact hpre p hp2

/-- Characterisation of an empty `match_state` scan: the scan returns
`none` exactly when every state in the alphabet fails the set-equality
test. -/
theorem match_state_scan_eq_none (alpha : List DiscreteStateAlphabetElement)
    (fa : FundAttr) (values : List String) :
    match_state_scan alpha fa values = none ↔
      ∀ st ∈ alpha, pySetEqB (fundAttrVal st fa) values = false := by
  induction alpha with
  | nil => simp [match_state_scan]
  | cons a rest ih =>
    rw [match_state_scan]
    by_cases hc : pySetEqB (fundAttrVal a fa) values = true
    · rw [if_pos hc]
      simp [hc]
    · rw [if_neg hc]
      rw [ih]
      simp only [List.mem_cons]
      constructor
      · intro hall st hst
        rcases hst with rfl | hst2
        · exact Bool.not_eq_true _ ▸ (by simpa using hc)
        · exact hall st hst2
      · intro hall st hst
        exact hall st (Or.inr hst)

/-- Characterisation of a successful `get_state`: the returned state has
the requested attribute value by exact equality and is the first such
state in iteration order. -/
theorem get_state_eq_ok (alpha : List DiscreteStateAlphabetElement)
    (attr : AttrName) (value : String) (st : DiscreteStateAlphabetElement)
    (h : get_state alpha attr value = .ok st) :
    attrVal st attr = some value ∧
      ∃ pre suf, alpha = pre ++ st :: suf ∧
        ∀ p ∈ pre, attrVal p attr ≠ some value := by
  induction alpha with
  | nil => cases h
  | cons a rest ih =>
    rw [get_state] at h
    by_cases hc : attrVal a attr = some value
    · rw [if_pos hc] at h
      obtain rfl : a = st := by cases h; rfl
      exact ⟨hc, [], rest, rfl, by simp⟩
    · rw [if_neg hc] at h
      obtain ⟨hq, pre, suf, hsplit, hpre⟩ := ih h
      refine ⟨hq, a :: pre, suf, by rw [hsplit]; rfl, ?_⟩
      intro p hp
      rcases List.mem_cons.mp hp with rfl | hp2
      · exact hc
      · exact hpre p hp2

/-- Characterisation of a failing `get_state`: the only failure is
`NotFound`, and it occurs exactly when no state has the requested
attribute value. -/
theorem get_state_eq_error (alpha : List DiscreteStateAlphabetElement)
    (attr : AttrName) (value : String) (e : Err) :
    get_state alpha attr value = .error e ↔
      (e = Err.NotFound ∧ ∀ st ∈ alpha, attrVal st attr ≠ some value) := by
  induction alpha with
  | nil =>
    rw [get_state]
    constructor
    · intro h
      cases h
      exact ⟨rfl, by simp⟩
    · rintro ⟨rfl, _⟩
      rfl
  | cons a rest ih =>
    rw [get_state]
    by_cases hc : attrVal a attr = some value
    · rw [if_pos hc]
      constructor
      · intro h
        cases h
      · rintro ⟨rfl, hall⟩
        exact absurd hc (hall a (List.mem_cons_self a rest))
    · rw [if_neg hc, ih]
      simp only [List.mem_cons]
      constructor
      · rintro ⟨rfl, hall⟩
        refine ⟨rfl, ?_⟩
        intro st hst
        rcases hst with rfl | hst2
        · exact hc
        · exact hall st hst2
      · rintro ⟨rfl, hall⟩
        exact ⟨rfl, fun st hst => hall st (Or.inr hst)⟩

/-- Characterisation of a successful batch lookup: `get_states_values`
returns `ok l` exactly when `l` corresponds one-to-one, in order, to the
supplied values through successful `get_state` lookups (duplicates and
positions preserved). -/
theorem get_states_values_eq_ok (alpha : List DiscreteStateAlphabetElement)
    (attr : AttrName) (values : List String) (l : List DiscreteStateAlphabetElement) :
    get_states_values alpha attr values = .ok l ↔
      List.Forall₂ (fun v st => get_state alpha attr v = .ok st) values l := by
  induction values generalizing l with
  | nil =>
    rw [get_states_values]
    constructor
    · intro h
      cases h
      exact List.Forall₂.nil
    · intro h
      rw [List.forall₂_nil_left_iff.mp h]
  | cons v vs ih =>
    rw [get_states_values]
    cases hg : get_state alpha attr v with
    | error e =>
      constructor
      · intro h
        cases h
      · intro h
        rcases List.forall₂_cons_left_iff.mp h with ⟨st, l2, hst, _, rfl⟩
        rw [hg] at hst
        cases hst
    | ok st =>
      cases hr : get_states_values alpha attr vs with
      | error e =>
        constructor
        · intro h
          cases h
        · intro h
          rcases List.forall₂_cons_left_iff.mp h with ⟨st2, l2, _, htail, rfl⟩
          rw [(ih l2).mpr htail] at hr
          cases hr
      | ok sts =>
        constructor
        · intro h
          cases h
          exact List.Forall₂.cons hg ((ih sts).mp hr)
        · intro h
          rcases List.forall₂_cons_left_iff.mp h with ⟨st2, l2, hst2, htail, rfl⟩
          rw [hg] at hst2
          cases hst2
          rw [(ih l2).mpr htail] at hr
          cases hr
          rfl

/-- The only error a batch lookup can produce is `NotFound`. -/
theorem get_states_values_error_kind (alpha : List DiscreteStateAlphabetElement)
    (attr : AttrName) (values : List String) (e : Err)
    (h : get_states_values alpha attr values = .error e) : e = Err.NotFound := by
  induction values with
  | nil =>
    rw [get_states_values] at h
    cases h
  | cons v vs ih =>
    rw [get_states_values] at h
    cases hg : get_state alpha attr v with
    | error e2 =>
      rw [hg] at h
      cases h
      exact ((get_state_eq_error alpha attr v e).mp hg).1
    | ok st =>
      rw [hg] at h
      cases hr : get_states_values alpha attr vs with
      | error e2 =>
        rw [hr] at h
        cases h
        exact ih hr
      | ok sts =>
        rw [hr] at h
        cases h

/-- Characterisation of a failing batch lookup: `get_states_values` fails
exactly when some supplied value matches no state, the failure is
`NotFound`, and no partial list is returned (the result is the bare
error). -/
theorem get_states_values_eq_error (alpha : List DiscreteStateAlphabetElement)
    (attr : AttrName) (values : List String) (e : Err) :
    get_states_values alpha attr values = .error e ↔
      (e = Err.NotFound ∧
        ∃ v ∈ values, get_state alpha attr v = .error Err.NotFound) := by
  induction values generalizing e with
  | nil =>
    rw [get_states_values]
    constructor
    · intro h
      cases h
    · rintro ⟨rfl, v, hv, _⟩
      cases hv
  | cons v vs ih =>
    rw [get_states_values]
    cases hg : get_state alpha attr v with
    | error e2 =>
      have he2 : e2 = Err.NotFound := ((get_state_eq_error alpha attr v e2).mp hg).1
      subst he2
      constructor
      · intro h
        cases h
        exact ⟨rfl, v, List.mem_cons_self v vs, hg⟩
      · rintro ⟨rfl, _⟩
        rfl
    | ok st =>
      cases hr : get_states_values alpha attr vs with
      | error e2 =>
        have he2 : e2 = Err.NotFound := get_states_values_error_kind alpha attr vs e2 hr
        subst he2
        obtain ⟨_, v2, hv2, herr⟩ := (ih Err.NotFound).mp hr
        constructor
        · intro h
          cases h
          exact ⟨rfl, v2, List.mem_cons_of_mem v hv2, herr⟩
        · rintro ⟨rfl, _⟩
          rfl
      | ok sts =>
        constructor
        · intro h
          cases h
        · rintro ⟨rfl, v2, hv2, herr⟩
          rcases List.mem_cons.mp hv2 with rfl | hv3
          · rw [hg] at herr
            cases herr
          · have hcontra : get_states_values alpha attr vs = .error Err.NotFound :=
              (ih Err.NotFound).mpr ⟨rfl, v2, hv3, herr⟩
            rw [hr] at hcontra
            cases hcontra

/-- C1: for every state element, fundamental-state resolution returns the
singleton set containing the state itself when the member-state collection
is absent, and otherwise the union, over each member state, of the
fundamental states of that member; in particular a SINGLE-kind state
(which by the data-model invariant has no member states) resolves to
exactly itself.  The acyclicity precondition of the claim holds by
construction in this embedding, where member states are contained
structurally. -/
theorem c1_fundamental_states_resolution (s : DiscreteStateAlphabetElement) :
    (s.member_states = none → s.fundamental_states = [s]) ∧
    (∀ ms, s.member_states = some ms →
      ∀ x, x ∈ s.fundamental_states ↔ ∃ m ∈ ms, x ∈ m.fundamental_states) ∧
    (s.multistate = DiscreteStateAlphabetElement.SINGLE_STATE →
      s.member_states = none → s.fundamental_states = [s]) := by
  obtain ⟨e, l, sy, tk, m, ms⟩ := s
  cases ms with
  | none =>
    refine ⟨fun _ => rfl, ?_, fun _ _ => rfl⟩
    intro ms2 h
    simp [DiscreteStateAlphabetElement.member_states] at h
  | some ms1 =>
    refine ⟨?_, ?_, ?_⟩
    · intro h
      simp [DiscreteStateAlphabetElement.member_states] at h
    · intro ms2 h x
      have hms : ms1 = ms2 := by
        simpa [DiscreteStateAlphabetElement.member_states] using h
      subst hms
      exact mem_fundamental_states_of_members ms1 x
    · intro _ h
      simp [DiscreteStateAlphabetElement.member_states] at h

/-- Witness for C1 at concrete inputs: the fundamental single state A
resolves to itself, and membership in the resolution of the ambiguous M
state is membership in the resolution of one of its members. -/
theorem c1_fundamental_states_resolution_witness :
    DiscreteStateAlphabetElement.fundamental_states (mkDnaSingle "A") = [mkDnaSingle "A"] ∧
    ((mkDnaSingle "A") ∈ DiscreteStateAlphabetElement.fundamental_states
        (mkDnaAmbiguous "M" [mkDnaSingle "A", mkDnaSingle "C"]) ↔
      ∃ m ∈ [mkDnaSingle "A", mkDnaSingle "C"],
        (mkDnaSingle "A") ∈ DiscreteStateAlphabetElement.fundamental_states m) :=
  ⟨(c1_fundamental_states_resolution (mkDnaSingle "A")).1 rfl,
   (c1_fundamental_states_resolution
      (mkDnaAmbiguous "M" [mkDnaSingle "A", mkDnaSingle "C"])).2.1
      [mkDnaSingle "A", mkDnaSingle "C"] rfl (mkDnaSingle "A")⟩

/-- C10: a state whose member-state collection is present but empty
(`some []`, the Python empty list, as opposed to `None`) resolves to the
empty set rather than to itself, so its fundamental ids, symbols and
tokens are all empty; the singleton base case of resolution applies only
when the member-state collection is absent. -/
theorem c10_empty_member_list (e : String) (l sy tk : Option String) (m : Nat) :
    DiscreteStateAlphabetElement.fundamental_states (.mk e l sy tk m (some [])) = [] ∧
    DiscreteStateAlphabetElement.fundamental_ids (.mk e l sy tk m (some [])) = [] ∧
    DiscreteStateAlphabetElement.fundamental_symbols (.mk e l sy tk m (some [])) = [] ∧
    DiscreteStateAlphabetElement.fundamental_tokens (.mk e l sy tk m (some [])) = [] ∧
    DiscreteStateAlphabetElement.fundamental_states (.mk e l sy tk m none) =
      [.mk e l sy tk m none] :=
  ⟨rfl, rfl, rfl, rfl, rfl⟩

/-- C8: the fundamental id, symbol and token sets are the projections of
the fundamental-state set to the respective attribute, where the symbol
and token projections silently omit every fundamental state whose
symbol/token is absent or empty, and never contain an empty-string
entry. -/
theorem c8_fundamental_projections (s : DiscreteStateAlphabetElement) :
    (∀ i, i ∈ s.fundamental_ids ↔ ∃ t ∈ s.fundamental_states, t.elem_id = i) ∧
    (∀ v, v ∈ s.fundamental_symbols ↔
      ∃ t ∈ s.fundamental_states, t.symbol = some v ∧ v ≠ "") ∧
    (∀ v, v ∈ s.fundamental_tokens ↔
      ∃ t ∈ s.fundamental_states, t.token = some v ∧ v ≠ "") ∧
    "" ∉ s.fundamental_symbols ∧ "" ∉ s.fundamental_tokens := by
  have hid : ∀ i, i ∈ s.fundamental_ids ↔
      ∃ t ∈ s.fundamental_states, t.elem_id = i := by
    intro i
    have h := mem_foldl_setInsert (fun t => DiscreteStateAlphabetElement.elem_id t)
      s.fundamental_states [] i
    simpa [DiscreteStateAlphabetElement.fundamental_ids] using h
  have hsym : ∀ v, v ∈ s.fundamental_symbols ↔
      ∃ t ∈ s.fundamental_states, t.symbol = some v ∧ v ≠ "" := by
    intro v
    have h := mem_foldl_truthyInsert (fun t => DiscreteStateAlphabetElement.symbol t)
      s.fundamental_states [] v
    simpa [DiscreteStateAlphabetElement.fundamental_symbols] using h
  have htok : ∀ v, v ∈ s.fundamental_tokens ↔
      ∃ t ∈ s.fundamental_states, t.token = some v ∧ v ≠ "" := by
    intro v
    have h := mem_foldl_truthyInsert (fun t => DiscreteStateAlphabetElement.token t)
      s.fundamental_states [] v
    simpa [DiscreteStateAlphabetElement.fundamental_tokens] using h
  refine ⟨hid, hsym, htok, ?_, ?_⟩
  · intro hmem
    obtain ⟨t, _, _, hne⟩ := (hsym "").mp hmem
    exact hne rfl
  · intro hmem
    obtain ⟨t, _, _, hne⟩ := (htok "").mp hmem
    exact hne rfl

/-- Witness for C8 at a concrete input: the symbol projection of the
ambiguous M state. -/
theorem c8_fundamental_projections_witness :
    "A" ∈ DiscreteStateAlphabetElement.fundamental_symbols
        (mkDnaAmbiguous "M" [mkDnaSingle "A", mkDnaSingle "C"]) ↔
      ∃ t ∈ DiscreteStateAlphabetElement.fundamental_states
          (mkDnaAmbiguous "M" [mkDnaSingle "A", mkDnaSingle "C"]),
        DiscreteStateAlphabetElement.symbol t = some "A" ∧ "A" ≠ "" :=
  (c8_fundamental_projections (mkDnaAmbiguous "M" [mkDnaSingle "A", mkDnaSingle "C"])).2.1 "A"

/-- C2: for a single supplied selector, `match_state` returns the first
state in the iteration order of the underlying collection whose
fundamental id/symbol/token set is exactly set-equal to the supplied
value set (neither subset nor superset matches), and returns the
non-error result `none` (null) when the set of no state equals it; the
selector dispatch maps ids/symbols/tokens to the corresponding
fundamental attribute with the supplied values normalised to a set. -/
theorem c2_match_state_exact_set (alpha : List DiscreteStateAlphabetElement)
    (fa : FundAttr) (values : List String) :
    (∀ st, match_state_scan alpha fa values = some st →
      ((∀ x, x ∈ fundAttrVal st fa ↔ x ∈ values) ∧
        ∃ pre suf, alpha = pre ++ st :: suf ∧
          ∀ p ∈ pre, ¬(∀ x, x ∈ fundAttrVal p fa ↔ x ∈ values))) ∧
    (match_state_scan alpha fa values = none ↔
      ∀ st ∈ alpha, ¬(∀ x, x ∈ fundAttrVal st fa ↔ x ∈ values)) ∧
    (∀ v, match_state alpha (some v) none none =
      .ok (match_state_scan alpha .fund_ids (normalizeValues v))) ∧
    (∀ v, match_state alpha none (some v) none =
      .ok (match_state_scan alpha .fund_symbols (normalizeValues v))) ∧
    (∀ v, match_state alpha none none (some v) =
      .ok (match_state_scan alpha .fund_tokens (normalizeValues v))) := by
  refine ⟨?_, ?_, fun _ => rfl, fun _ => rfl, fun _ => rfl⟩
  · intro st h
    obtain ⟨hq, pre, suf, hsplit, hpre⟩ := match_state_scan_eq_some alpha fa values st h
    refine ⟨(pySetEqB_iff _ _).mp hq, pre, suf, hsplit, ?_⟩
    intro p hp hiff
    have hb : pySetEqB (fundAttrVal p fa) values = true := (pySetEqB_iff _ _).mpr hiff
    rw [hpre p hp] at hb
    cases hb
  · rw [match_state_scan_eq_none]
    constructor
    · intro hall st hst hiff
      have hb := (pySetEqB_iff _ _).mpr hiff
      rw [hall st hst] at hb
      cases hb
    · intro hall st hst
      cases hb : pySetEqB (fundAttrVal st fa) values
      · rfl
      · exact absurd ((pySetEqB_iff _ _).mp hb) (hall st hst)

/-- Witness for C2 at a concrete input: on the DNA alphabet with symbol
value set {A, C, G}, the scan returns the V state — whose fundamental
symbol set is exactly {A, C, G} — and every state before it in iteration
order (in particular the N state, whose set is the superset
{A, C, G, T}) fails the exact-set test. -/
theorem c2_match_state_exact_set_witness :
    (∀ x, x ∈ fundAttrVal
        (mkDnaAmbiguous "V" [mkDnaSingle "A", mkDnaSingle "C", mkDnaSingle "G"])
        FundAttr.fund_symbols ↔ x ∈ ["A", "C", "G"]) ∧
      ∃ pre suf,
        dnaStates = pre ++
          (mkDnaAmbiguous "V" [mkDnaSingle "A", mkDnaSingle "C", mkDnaSingle "G"]) :: suf ∧
        ∀ p ∈ pre, ¬(∀ x, x ∈ fundAttrVal p FundAttr.fund_symbols ↔ x ∈ ["A", "C", "G"]) :=
  (c2_match_state_exact_set dnaStates FundAttr.fund_symbols ["A", "C", "G"]).1
    (mkDnaAmbiguous "V" [mkDnaSingle "A", mkDnaSingle "C", mkDnaSingle "G"]) (by decide)

/-- C3: on the standard DNA alphabet, matching the symbol set
{A, C, G, T} yields the N state, {A, C} yields the M state, the single
string "AG" (split into characters) yields the R state, and the single
string "ACGT-" yields the ? state; each of these states exists in the
alphabet. -/
theorem c3_dna_match_state_examples :
    match_state dnaStates none (some (SelValues.ofSet ["A", "C", "G", "T"])) none
        = .ok (dnaStateBySymbol "N") ∧ (dnaStateBySymbol "N").isSome = true ∧
      match_state dnaStates none (some (SelValues.ofSet ["A", "C"])) none
        = .ok (dnaStateBySymbol "M") ∧ (dnaStateBySymbol "M").isSome = true ∧
      match_state dnaStates none (some (SelValues.ofStr "AG")) none
        = .ok (dnaStateBySymbol "R") ∧ (dnaStateBySymbol "R").isSome = true ∧
      match_state dnaStates none (some (SelValues.ofStr "ACGT-")) none
        = .ok (dnaStateBySymbol "?") ∧ (dnaStateBySymbol "?").isSome = true := by
  decide

/-- Counterexample for C4: the standard DNA alphabet construction yields
17 states, not 16 — the five fundamentals A, C, G, T, "-" plus the twelve
ambiguity states ?, N, M, R, W, S, Y, K, V, H, D, B. -/
theorem c4_counterexample_sixteen_states : decide (dnaStates.length = 16) = false := by
  decide

/-- C4 amended: constructing the standard DNA alphabet succeeds and
yields exactly 17 states — the SINGLE states A, C, G, T and gap "-",
followed by the AMBIGUOUS states ?, N, M, R, W, S, Y, K, V, H, D, B —
with every composite state added strictly after all of its member
states. -/
theorem c4_dna_alphabet_construction :
    dnaStatesE = Except.ok dnaStates ∧
    dnaStates.length = 17 ∧
    dnaStates.map (fun s => DiscreteStateAlphabetElement.symbol s) =
      [some "A", some "C", some "G", some "T", some "-", some "?", some "N", some "M",
        some "R", some "W", some "S", some "Y", some "K", some "V", some "H", some "D",
        some "B"] ∧
    (∀ s ∈ dnaStates.take 5,
      DiscreteStateAlphabetElement.multistate s =
          DiscreteStateAlphabetElement.SINGLE_STATE ∧
        DiscreteStateAlphabetElement.member_states s = none) ∧
    (∀ s ∈ dnaStates.drop 5,
      DiscreteStateAlphabetElement.multistate s =
          DiscreteStateAlphabetElement.AMBIGUOUS_STATE ∧
        DiscreteStateAlphabetElement.member_states s ≠ none) ∧
    (∀ i : Fin dnaStates.length, ∀ ms,
      DiscreteStateAlphabetElement.member_states (dnaStates.get i) = some ms →
      ∀ m ∈ ms, ∃ j : Fin dnaStates.length, j.1 < i.1 ∧ dnaStates.get j = m) := by
  decide

/-- C5: the batch lookup `get_states` applies `get_state` to each value of
the single supplied selector in order, preserving duplicates and
positions; it fails with `NotFound` (propagated from `get_state`, with no
partial result) exactly when some value matches no state; `get_state`
itself compares the named attribute by exact equality and fails with
`NotFound` exactly when no state matches. -/
theorem c5_get_states_pointwise (alpha : List DiscreteStateAlphabetElement)
    (attr : AttrName) (values : List String) :
    (∀ l, get_states_values alpha attr values = .ok l ↔
      List.Forall₂ (fun v st => get_state alpha attr v = .ok st) values l) ∧
    (∀ e, get_states_values alpha attr values = .error e ↔
      (e = Err.NotFound ∧ ∃ v ∈ values, get_state alpha attr v = .error Err.NotFound)) ∧
    (∀ v st, get_state alpha attr v = .ok st → attrVal st attr = some v) ∧
    (∀ v e, get_state alpha attr v = .error e ↔
      (e = Err.NotFound ∧ ∀ st ∈ alpha, attrVal st attr ≠ some v)) ∧
    (∀ vals, get_states alpha (some vals) none none =
      get_states_values alpha .elem_id vals) ∧
    (∀ vals, get_states alpha none (some vals) none =
      get_states_values alpha .symbol vals) ∧
    (∀ vals, get_states alpha none none (some vals) =
      get_states_values alpha .token vals) :=
  ⟨fun l => get_states_values_eq_ok alpha attr values l,
    fun e => get_states_values_eq_error alpha attr values e,
    fun v st h => (get_state_eq_ok alpha attr v st h).1,
    fun v e => get_state_eq_error alpha attr v e,
    fun _ => rfl, fun _ => rfl, fun _ => rfl⟩

/-- Witness for C5 at the concrete input of the claim: on the DNA
alphabet, looking up symbols ["A", "Z"] fails with `NotFound` and returns
no partial result. -/
theorem c5_get_states_pointwise_witness :
    get_states_values dnaStates AttrName.symbol ["A", "Z"] = .error Err.NotFound ∧
    get_states dnaStates none (some ["A", "Z"]) none = .error Err.NotFound := by
  have h := (c5_get_states_pointwise dnaStates AttrName.symbol ["A", "Z"]).2.1 Err.NotFound
  have hd := (c5_get_states_pointwise dnaStates AttrName.symbol
    ["A", "Z"]).2.2.2.2.2.1 ["A", "Z"]
  refine ⟨h.mpr ⟨rfl, "Z", by decide, by decide⟩, ?_⟩
  rw [hd]
  exact h.mpr ⟨rfl, "Z", by decide, by decide⟩

/-- A batch lookup never fails with `InvalidArgument` once a selector has
been dispatched. -/
theorem get_states_values_ne_invalid (alpha : List DiscreteStateAlphabetElement)
    (attr : AttrName) (vals : List String) :
    get_states_values alpha attr vals ≠ .error Err.InvalidArgument := by
  intro h
  exact Err.noConfusion
    (get_states_values_error_kind alpha attr vals Err.InvalidArgument h)

/-- The `get_states` selector dispatch raises `InvalidArgument` exactly
when all three selectors are absent. -/
theorem get_states_invalid_argument_iff (alpha : List DiscreteStateAlphabetElement)
    (gi gs gt : Option (List String)) :
    get_states alpha gi gs gt = .error Err.InvalidArgument ↔
      (gi = none ∧ gs = none ∧ gt = none) := by
  obtain _ | gi1 := gi
  · obtain _ | gs1 := gs
    · obtain _ | gt1 := gt
      · simp [get_states]
      · simp [get_states, get_states_values_ne_invalid]
    · simp [get_states, get_states_values_ne_invalid]
  · simp [get_states, get_states_values_ne_invalid]

/-- The `match_state` selector dispatch raises `InvalidArgument` exactly
when all three selectors are absent. -/
theorem match_state_invalid_argument_iff (alpha : List DiscreteStateAlphabetElement)
    (mi msy mt : Option SelValues) :
    match_state alpha mi msy mt = .error Err.InvalidArgument ↔
      (mi = none ∧ msy = none ∧ mt = none) := by
  obtain _ | mi1 := mi
  · obtain _ | msy1 := msy
    · obtain _ | mt1 := mt
      · simp [match_state]
      · simp [match_state]
    · simp [match_state]
  · simp [match_state]

/-- C6 amended: `get_states` and `match_state` fail with `InvalidArgument`
exactly when zero selectors are supplied; when more than one selector is
supplied no error is raised — the first non-absent selector in the order
ids, symbols, tokens silently takes precedence. -/
theorem c6_selector_dispatch (alpha : List DiscreteStateAlphabetElement)
    (gi gs gt : Option (List String)) (mi msy mt : Option SelValues) :
    (get_states alpha gi gs gt = .error Err.InvalidArgument ↔
      (gi = none ∧ gs = none ∧ gt = none)) ∧
    (match_state alpha mi msy mt = .error Err.InvalidArgument ↔
      (mi = none ∧ msy = none ∧ mt = none)) ∧
    (∀ vals, gi = some vals →
      get_states alpha gi gs gt = get_states_values alpha .elem_id vals) ∧
    (gi = none → ∀ vals, gs = some vals →
      get_states alpha gi gs gt = get_states_values alpha .symbol vals) ∧
    (gi = none → gs = none → ∀ vals, gt = some vals →
      get_states alpha gi gs gt = get_states_values alpha .token vals) ∧
    (∀ v, mi = some v → match_state alpha mi msy mt =
      .ok (match_state_scan alpha .fund_ids (normalizeValues v))) ∧
    (mi = none → ∀ v, msy = some v → match_state alpha mi msy mt =
      .ok (match_state_scan alpha .fund_symbols (normalizeValues v))) ∧
    (mi = none → msy = none → ∀ v, mt = some v → match_state alpha mi msy mt =
      .ok (match_state_scan alpha .fund_tokens (normalizeValues v))) := by
  refine ⟨get_states_invalid_argument_iff alpha gi gs gt,
    match_state_invalid_argument_iff alpha mi msy mt, ?_, ?_, ?_, ?_, ?_, ?_⟩
  · rintro vals rfl
    rfl
  · rintro rfl vals rfl
    rfl
  · rintro rfl rfl vals rfl
    rfl
  · rintro v rfl
    rfl
  · rintro rfl v rfl
    rfl
  · rintro rfl rfl v rfl
    rfl

/-- Witness for C6 at concrete inputs: with zero selectors both
operations raise `InvalidArgument`, and with two selectors supplied the
ids selector takes precedence. -/
theorem c6_selector_dispatch_witness :
    get_states fixtureAlpha none none none = .error Err.InvalidArgument ∧
    match_state fixtureAlpha none none none = .error Err.InvalidArgument ∧
    get_states fixtureAlpha (some ["s1"]) (some ["A"]) none =
      get_states_values fixtureAlpha AttrName.elem_id ["s1"] :=
  ⟨(c6_selector_dispatch fixtureAlpha none none none none none none).1.mpr
      ⟨rfl, rfl, rfl⟩,
    (c6_selector_dispatch fixtureAlpha none none none none none none).2.1.mpr
      ⟨rfl, rfl, rfl⟩,
    (c6_selector_dispatch fixtureAlpha (some ["s1"]) (some ["A"]) none
      none none none).2.2.1 ["s1"] rfl⟩

/-- Counterexample for C6: supplying two selectors simultaneously (ids
and symbols) raises no `InvalidArgument` — both operations silently use
the ids selector and succeed — refuting the claim that more than one
supplied selector fails with `InvalidArgument`. -/
theorem c6_counterexample_two_selectors :
    get_states fixtureAlpha (some ["s1"]) (some ["A"]) none = .ok [fixtureState] ∧
    decide (get_states fixtureAlpha (some ["s1"]) (some ["A"]) none =
      .error Err.InvalidArgument) = false ∧
    match_state fixtureAlpha (some (SelValues.ofList ["s1"]))
      (some (SelValues.ofStr "A")) none = .ok (some fixtureState) ∧
    decide (match_state fixtureAlpha (some (SelValues.ofList ["s1"]))
      (some (SelValues.ofStr "A")) none = .error Err.InvalidArgument) = false := by
  decide

/-- C7 (against the spec-modelled insertion `alphaAdd`): inserting a
state whose identifier equals the identifier of a state already present
fails with `DuplicateKey` — the alphabet value is left untouched by the
failed insertion, since the error carries no modified collection — and
inserting a state with a fresh identifier succeeds, appending it after
the prior contents. -/
theorem c7_add_duplicate_key (alpha : List DiscreteStateAlphabetElement)
    (s : DiscreteStateAlphabetElement) :
    ((∃ t ∈ alpha, DiscreteStateAlphabetElement.elem_id t =
        DiscreteStateAlphabetElement.elem_id s) →
      alphaAdd alpha s = .error Err.DuplicateKey) ∧
    ((∀ t ∈ alpha, DiscreteStateAlphabetElement.elem_id t ≠
        DiscreteStateAlphabetElement.elem_id s) →
      alphaAdd alpha s = .ok (alpha ++ [s])) := by
  constructor
  · rintro ⟨t, ht, heq⟩
    have hb : (alpha.any fun t => decide (DiscreteStateAlphabetElement.elem_id t =
        DiscreteStateAlphabetElement.elem_id s)) = true :=
      List.any_eq_true.mpr ⟨t, ht, decide_eq_true heq⟩
    simp [alphaAdd, hb]
  · intro hall
    have hb : (alpha.any fun t => decide (DiscreteStateAlphabetElement.elem_id t =
        DiscreteStateAlphabetElement.elem_id s)) = false := by
      rw [Bool.eq_false_iff]
      intro hany
      obtain ⟨t, ht, hdec⟩ := List.any_eq_true.mp hany
      exact hall t ht (of_decide_eq_true hdec)
    simp [alphaAdd, hb]

/-- Witness for C7 at concrete inputs: adding a second state with the
already-used identifier `A` fails with `DuplicateKey`; adding a state
with the fresh identifier `C` succeeds and preserves the prior
contents. -/
theorem c7_add_duplicate_key_witness :
    alphaAdd [mkDnaSingle "A"]
      (DiscreteStateAlphabetElement.mk "A" none (some "A") none
        DiscreteStateAlphabetElement.AMBIGUOUS_STATE none) = .error Err.DuplicateKey ∧
    alphaAdd [mkDnaSingle "A"] (mkDnaSingle "C") =
      .ok [mkDnaSingle "A", mkDnaSingle "C"] :=
  ⟨(c7_add_duplicate_key [mkDnaSingle "A"]
      (DiscreteStateAlphabetElement.mk "A" none (some "A") none
        DiscreteStateAlphabetElement.AMBIGUOUS_STATE none)).1
      ⟨mkDnaSingle "A", by decide, by decide⟩,
    (c7_add_duplicate_key [mkDnaSingle "A"] (mkDnaSingle "C")).2 (by decide)⟩

/-- Lookup after dict assignment: the entry stored for a key is found. -/
theorem find_dictSet (rows : List (String × List DiscreteStateAlphabetElement))
    (k : String) (v : List DiscreteStateAlphabetElement) :
    (dictSet rows k v).find? (fun p => decide (p.1 = k)) = some (k, v) := by
  induction rows with
  | nil => simp [dictSet, List.find?]
  | cons p rest ih =>
    by_cases hp : p.1 = k
    · simp [dictSet, List.any_cons, hp, List.find?]
    · cases hany : (rest.any fun q => decide (q.1 = k)) with
      | true =>
        have ihx := ih
        simp [dictSet, List.any_cons, hany, hp, List.find?] at ihx ⊢
        exact ihx
      | false =>
        have ihx := ih
        simp [dictSet, List.any_cons, hany, hp, List.find?] at ihx ⊢
        exact ihx

/-- Counterexample for C9: setting a row containing a state foreign to
every registered alphabet set of the block succeeds — the row is stored
and returned by `getRow` — instead of failing with `InvalidArgument`;
the block performs no membership validation, since row assignment is
plain dict item assignment. -/
theorem c9_counterexample_foreign_state :
    stateRegistered dnaBlock foreignState = false ∧
    getRow (setRow dnaBlock "taxon1" [foreignState]) "taxon1" =
      some [foreignState] := by
  decide

/-- C9 amended: `setRow` stores the supplied row unconditionally —
without validating membership of its states in the registered alphabet
sets of the block — and `getRow` then returns exactly that row. -/
theorem c9_set_row_unvalidated (b : CharactersBlock) (taxon : String)
    (states : List DiscreteStateAlphabetElement) :
    getRow (setRow b taxon states) taxon = some states := by
  rw [setRow, getRow]
  simp [find_dictSet]

/-- Witness for C4 at a concrete input: the construction-order clause of
the amended claim, applied to the N state (position 6) and its member
state A. -/
theorem c4_dna_alphabet_construction_witness :
    ∃ j : Fin dnaStates.length, j.1 < 6 ∧ dnaStates.get j = mkDnaSingle "A" := by
  have h := c4_dna_alphabet_construction.2.2.2.2.2
    ⟨6, by decide⟩
    [mkDnaSingle "A", mkDnaSingle "C", mkDnaSingle "G", mkDnaSingle "T"]
    (by decide) (mkDnaSingle "A") (by decide)
  exact h
